import Mathlib

/-!
Verification of the remote-mcp-adapter bridge core.

Shallow embedding of the TypeScript source:
* `src/utils/jsonrpc.ts` — envelope validation, batch parsing, formatting;
* `src/utils/buffer.ts` — per-subscriber bounded buffering;
* `src/message-router.ts` — newline frame splitting of child stdout;
* `src/streamable-http-handler.ts` — chunked-ndjson engine with replay buffer;
* `src/sse-handler.ts` / `src/process-manager.ts` — SSE engine and supervisor;
* `src/config.ts` — input-variable resolution and bridge configuration;
* `src/server.ts` — the POST /mcp ingress handler.

JSON values are modelled by an inductive `Json`; JavaScript strings by Lean
`String`; byte counts (`Buffer.byteLength(_, 'utf8')`) by `String.utf8ByteSize`;
JavaScript numbers used in size arithmetic by `Int` (so that expressions like
`maxBufferSize - messageSize` may go negative exactly as in the source).
-/

namespace Bridge

/-- JSON values as seen by the bridge after `JSON.parse`.  Object fields keep
their insertion order, matching JavaScript object semantics; numbers are
restricted to integers, which covers every numeric field the bridge inspects. -/
inductive Json where
  | null
  | bool (b : Bool)
  | num (n : Int)
  | str (s : String)
  | arr (elems : List Json)
  | obj (fields : List (String × Json))

/-- First-occurrence field lookup, modelling `msg.key` / `'key' in msg` on a
parsed JavaScript object (parsed objects have unique keys). -/
def lookupField (fields : List (String × Json)) (key : String) : Option Json :=
  match fields with
  | [] => none
  | (k, v) :: rest => if k = key then some v else lookupField rest key

/-- Models `'key' in msg`. -/
def hasField (fields : List (String × Json)) (key : String) : Bool :=
  (lookupField fields key).isSome

/-- Models `'method' in msg && typeof msg.method === 'string'`
(jsonrpc.ts line 144). -/
def methodIsString (fields : List (String × Json)) : Bool :=
  match lookupField fields "method" with
  | some (.str _) => true
  | _ => false

/-- Models `msg.jsonrpc !== '2.0'` being false (jsonrpc.ts line 139). -/
def jsonrpcIs20 (fields : List (String × Json)) : Bool :=
  match lookupField fields "jsonrpc" with
  | some (.str v) => v = "2.0"
  | _ => false

/-- Embedding of `validateJsonRpcMessage` (src/utils/jsonrpc.ts lines 132-154).
Non-objects (including arrays) are rejected; then the version is checked; then
the request/notification shape (string `method`); then the response shape
(`result` or `error` present, together with `id`). -/
def validateJsonRpcMessage (j : Json) : Except String Json :=
  match j with
  | .obj fields =>
    if jsonrpcIs20 fields then
      if methodIsString fields then .ok j
      else if (hasField fields "result" || hasField fields "error") && hasField fields "id" then .ok j
      else .error "Invalid JSON-RPC message: must have method or result/error"
    else .error "JSON-RPC version must be 2.0"
  | _ => .error "JSON-RPC message must be an object"

/-- Embedding of `parseJsonRpcBatch` (src/utils/jsonrpc.ts lines 188-200):
requires an array and validates every element, failing on the first invalid
element. -/
def parseJsonRpcBatch (j : Json) : Except String (List Json) :=
  match j with
  | .arr elems => elems.mapM validateJsonRpcMessage
  | _ => .error "JSON-RPC batch must be an array"

/-- Digit character for bases up to 16 (lowercase), as used by JavaScript
number-to-string conversion. -/
def digitChar (n : Nat) : Char :=
  if n < 10 then Char.ofNat (48 + n) else Char.ofNat (87 + n)

/-- Decimal digits of a natural number, most significant first. -/
def natDigits (n : Nat) : List Char :=
  if _h : n < 10 then [digitChar n]
  else natDigits (n / 10) ++ [digitChar (n % 10)]
decreasing_by exact Nat.div_lt_self (by omega) (by omega)

/-- Decimal rendering of an integer, modelling how `JSON.stringify` prints the
integral numbers the bridge handles. -/
def intRepr (n : Int) : String :=
  match n with
  | .ofNat m => ⟨natDigits m⟩
  | .negSucc m => ⟨'-' :: natDigits (m + 1)⟩

/-- Escape of one character inside a JSON string literal, following
`JSON.stringify`: quote, backslash, the named control escapes, and `\u00xx`
for the remaining control characters. -/
def escChar (c : Char) : List Char :=
  if c = '"' then ['\\', '"']
  else if c = '\\' then ['\\', '\\']
  else if c = '\x08' then ['\\', 'b']
  else if c = '\x0c' then ['\\', 'f']
  else if c = '\n' then ['\\', 'n']
  else if c = '\r' then ['\\', 'r']
  else if c = '\t' then ['\\', 't']
  else if c.toNat < 32 then ['\\', 'u', '0', '0', digitChar (c.toNat / 16), digitChar (c.toNat % 16)]
  else [c]

/-- JSON string literal serialization (compact, `JSON.stringify` style). -/
def serializeStr (s : String) : String :=
  "\"" ++ String.mk ((s.data.map escChar).flatten) ++ "\""

mutual

/-- Compact serialization of a `Json` value, the model of `JSON.stringify`
as used by `formatJsonRpcMessage` and the router. -/
def serialize : Json → String
  | .null => "null"
  | .bool true => "true"
  | .bool false => "false"
  | .num n => intRepr n
  | .str s => serializeStr s
  | .arr elems => "[" ++ serializeItems elems ++ "]"
  | .obj fields => "\x7b" ++ serializeFields fields ++ "\x7d"

/-- Comma-separated serialization of array elements. -/
def serializeItems : List Json → String
  | [] => ""
  | [j] => serialize j
  | j :: j2 :: rest => serialize j ++ "," ++ serializeItems (j2 :: rest)

/-- Comma-separated serialization of object fields. -/
def serializeFields : List (String × Json) → String
  | [] => ""
  | [(k, v)] => serializeStr k ++ ":" ++ serialize v
  | (k, v) :: f :: rest => serializeStr k ++ ":" ++ serialize v ++ "," ++ serializeFields (f :: rest)

end

/-- Embedding of `formatJsonRpcMessage` (src/utils/jsonrpc.ts lines 180-183):
`JSON.stringify(msg) + '\n'`. -/
def formatJsonRpcMessage (m : Json) : String :=
  serialize m ++ "\n"

/-- JavaScript whitespace as relevant to `String.prototype.trim` on the
characters the bridge actually meets (space, tab, carriage return, newline). -/
def isWsp (c : Char) : Bool :=
  c = ' ' || c = '\t' || c = '\n' || c = '\r'

/-- Models `line.trim()`: strip leading and trailing whitespace. -/
def jsTrim (l : List Char) : List Char :=
  ((l.dropWhile isWsp).reverse.dropWhile isWsp).reverse

/-- Models `buffer.split('\n')` followed by `lines.pop()`
(src/message-router.ts lines 29-32): the first component lists the complete
(newline-terminated) segments in order, the second is the trailing segment
after the last newline. -/
def splitLines : List Char → List (List Char) × List Char
  | [] => ([], [])
  | c :: cs =>
    let p := splitLines cs
    if c = '\n' then ([] :: p.1, p.2)
    else
      match p with
      | ([], r) => ([], c :: r)
      | (l :: ls, r) => ((c :: l) :: ls, r)

/-- Embedding of one `MessageRouter.processStdout` call
(src/message-router.ts lines 24-66) restricted to its frame-splitting part:
append the chunk to the buffer, split on newlines, keep the trailing partial
segment as the new buffer, and yield the trimmed non-empty complete segments
in order. -/
def processChunk (buf chunk : List Char) : List (List Char) × List Char :=
  let p := splitLines (buf ++ chunk)
  ((p.1.map jsTrim).filter (fun l => !l.isEmpty), p.2)

/-- Fold `processChunk` over a chunk sequence starting from a given buffer,
collecting all emitted frames in order and the final buffer. -/
def processChunksFrom (buf : List Char) : List (List Char) → List (List Char) × List Char
  | [] => ([], buf)
  | chunk :: rest =>
    let p := processChunk buf chunk
    let q := processChunksFrom p.2 rest
    (p.1 ++ q.1, q.2)

/-- All frames emitted by the splitter across a partition of the stdout byte
stream into chunks, starting from the empty buffer, plus the final buffer. -/
def processChunks (chunks : List (List Char)) : List (List Char) × List Char :=
  processChunksFrom [] chunks

/-- Embedding of the `lazyStart` field of `loadBridgeConfig`
(src/config.ts line 102): `process.env.LAZY_START !== 'false'`.
The argument is the raw environment variable (`none` when unset). -/
def loadBridgeConfig_lazyStart (lazyStartVar : Option String) : Bool :=
  lazyStartVar ≠ some "false"

/-- `Buffer.byteLength(s, 'utf8')`, as an integer for JavaScript number
arithmetic. -/
def byteLen (s : String) : Int :=
  (s.utf8ByteSize : Int)

/-- Sum of the UTF-8 byte lengths of a list of messages, the reference value
for `bufferSize`. -/
def sumBytes (msgs : List String) : Int :=
  match msgs with
  | [] => 0
  | m :: rest => byteLen m + sumBytes rest

/-- The per-connection subscriber record (src/types.ts `StreamSubscriber`),
restricted to the fields the buffering logic manipulates: the message queue
and its tracked byte size. -/
structure StreamSubscriber where
  buffer : List String
  bufferSize : Int

/-- Embedding of `isBufferOverLimit` (src/utils/buffer.ts lines 218-220):
`subscriber.bufferSize > maxSize`.  The bound is an `Int` because callers pass
`maxBufferSize - messageSize`, which may be negative. -/
def isBufferOverLimit (sub : StreamSubscriber) (maxSize : Int) : Bool :=
  sub.bufferSize > maxSize

/-- Embedding of `addToBuffer` (src/utils/buffer.ts lines 225-236): refuse when
the message would push `bufferSize` past `maxSize`, otherwise append the
message and account its bytes.  Returns the updated subscriber and the
source's boolean result. -/
def addToBuffer (sub : StreamSubscriber) (message : String) (maxSize : Int) :
    StreamSubscriber × Bool :=
  let messageSize := byteLen message
  if sub.bufferSize + messageSize > maxSize then (sub, false)
  else ({ buffer := sub.buffer ++ [message], bufferSize := sub.bufferSize + messageSize }, true)

/-- Embedding of `clearBuffer` (src/utils/buffer.ts lines 241-244). -/
def clearBuffer (_sub : StreamSubscriber) : StreamSubscriber :=
  { buffer := [], bufferSize := 0 }

/-- Embedding of the `flushSubscriber` drain loop (src/sse-handler.ts lines
117-140 and src/streamable-http-handler.ts lines 435-513): pop queued messages
from the front, decrementing `bufferSize` by each popped message's byte
length, until the sink applies backpressure.  `credits` is the number of
messages the sink accepts before its write returns false; a later drain event
re-runs the same loop with fresh credits. -/
def flushSubscriber (sub : StreamSubscriber) (credits : Nat) : StreamSubscriber :=
  match credits, sub.buffer with
  | 0, _ => sub
  | _ + 1, [] => sub
  | k + 1, m :: rest => flushSubscriber { buffer := rest, bufferSize := sub.bufferSize - byteLen m } k

/-- Embedding of the per-subscriber body of `broadcast` (src/sse-handler.ts
lines 84-106, src/streamable-http-handler.ts lines 397-419): evict (`none`)
when the pre-check `isBufferOverLimit(sub, max - messageSize)` trips or
`addToBuffer` refuses; otherwise enqueue and flush. -/
def broadcastToSub (sub : StreamSubscriber) (message : String) (maxBufferSize : Int)
    (credits : Nat) : Option StreamSubscriber :=
  let messageSize := byteLen message
  if isBufferOverLimit sub (maxBufferSize - messageSize) then none
  else
    match addToBuffer sub message maxBufferSize with
    | (_, false) => none
    | (sub', true) => some (flushSubscriber sub' credits)

/-- Embedding of the delivery loop of `deliverBufferedMessages`
(src/streamable-http-handler.ts lines 526-545): walk the replayed messages in
order; at the first message whose enqueueing would overflow the subscriber
ceiling, break — every remaining message is discarded with the loop. -/
def deliverLoop (sub : StreamSubscriber) (msgs : List String) (maxBufferSize : Int) :
    StreamSubscriber :=
  match msgs with
  | [] => sub
  | m :: rest =>
    if isBufferOverLimit sub (maxBufferSize - byteLen m) then sub
    else
      match addToBuffer sub m maxBufferSize with
      | (_, false) => sub
      | (sub', true) => deliverLoop sub' rest maxBufferSize

/-- One subscriber-level operation of either engine, relating a subscriber
state to its successor: a successful enqueue, a flush (any number of accepted
writes, covering drain-resumed flushes), a replay drain, or a queue clear
(eviction, `removeSubscriber`, `closeAll`). -/
inductive SubStep (maxBufferSize : Int) : StreamSubscriber → StreamSubscriber → Prop where
  | add (sub : StreamSubscriber) (message : String)
      (h : (addToBuffer sub message maxBufferSize).2 = true) :
      SubStep maxBufferSize sub (addToBuffer sub message maxBufferSize).1
  | flush (sub : StreamSubscriber) (credits : Nat) :
      SubStep maxBufferSize sub (flushSubscriber sub credits)
  | deliver (sub : StreamSubscriber) (msgs : List String) :
      SubStep maxBufferSize sub (deliverLoop sub msgs maxBufferSize)
  | clear (sub : StreamSubscriber) :
      SubStep maxBufferSize sub (clearBuffer sub)

/-- A subscriber state reachable from the freshly attached subscriber
(`buffer: [], bufferSize: 0`) by engine operations. -/
def SubReachable (maxBufferSize : Int) (sub : StreamSubscriber) : Prop :=
  Relation.ReflTransGen (SubStep maxBufferSize) { buffer := [], bufferSize := 0 } sub

/-- State of the chunked-ndjson engine (`StreamableHttpHandler`,
src/streamable-http-handler.ts lines 69-81): the live subscribers in
insertion order, and the global replay buffer with its tracked byte size. -/
structure ChunkedState where
  subs : List StreamSubscriber
  globalMessageBuffer : List String
  globalBufferSize : Int

/-- The initial chunked-ndjson engine state. -/
def chunkedInit : ChunkedState :=
  { subs := [], globalMessageBuffer := [], globalBufferSize := 0 }

/-- Embedding of `StreamableHttpHandler.broadcast`
(src/streamable-http-handler.ts lines 362-428): skip whitespace-only
messages; with no subscribers, append to the replay buffer iff it stays within
`maxBufferSize` (otherwise drop); with subscribers, enqueue-and-flush each,
removing those that overflow. -/
def chunkedBroadcast (st : ChunkedState) (message : String) (maxBufferSize : Int)
    (credits : Nat) : ChunkedState :=
  if (jsTrim message.data).isEmpty then st
  else
    let messageSize := byteLen message
    match st.subs with
    | [] =>
      if st.globalBufferSize + messageSize ≤ maxBufferSize then
        { st with globalMessageBuffer := st.globalMessageBuffer ++ [message],
                  globalBufferSize := st.globalBufferSize + messageSize }
      else st
    | _ =>
      { st with subs := st.subs.filterMap (fun sub => broadcastToSub sub message maxBufferSize credits) }

/-- Embedding of `deliverBufferedMessages`
(src/streamable-http-handler.ts lines 518-559) acting on the engine state:
run the delivery loop for the given subscriber, then clear the global replay
buffer unconditionally. -/
def deliverBufferedMessages (st : ChunkedState) (sub : StreamSubscriber)
    (maxBufferSize : Int) : ChunkedState × StreamSubscriber :=
  let sub' := deliverLoop sub st.globalMessageBuffer maxBufferSize
  ({ st with globalMessageBuffer := [], globalBufferSize := 0 }, sub')

/-- Embedding of the attach path of `StreamableHttpHandler.handleStream`
(src/streamable-http-handler.ts lines 94-187): reject at the subscriber
ceiling; otherwise register a fresh subscriber and deliver the replay buffer
to it.  The second component is the new subscriber's queue right after the
replay drain — the messages the attaching client will receive from replay. -/
def chunkedAttach (st : ChunkedState) (maxBufferSize : Int) (maxSubscribers : Nat) :
    ChunkedState × Option (List String) :=
  if st.subs.length ≥ maxSubscribers then (st, none)
  else
    let fresh : StreamSubscriber := { buffer := [], bufferSize := 0 }
    let p := deliverBufferedMessages st fresh maxBufferSize
    ({ p.1 with subs := st.subs ++ [p.2] }, some p.2.buffer)

/-- Embedding of `removeSubscriber` (src/streamable-http-handler.ts lines
564-579) at the state level: drop one subscriber (by position). -/
def chunkedRemove (st : ChunkedState) (i : Nat) : ChunkedState :=
  { st with subs := st.subs.eraseIdx i }

/-- Embedding of `closeAll` (src/streamable-http-handler.ts lines 591-611):
end every sink and clear the subscriber map; the replay buffer is untouched. -/
def chunkedCloseAll (st : ChunkedState) : ChunkedState :=
  { st with subs := [] }

/-- A drain event re-running `flushSubscriber` for the subscriber at
position `i`. -/
def chunkedFlushAt (st : ChunkedState) (i : Nat) (credits : Nat) : ChunkedState :=
  { st with subs := st.subs.mapIdx (fun j sub => if j = i then flushSubscriber sub credits else sub) }

/-- One observable operation on the chunked-ndjson engine state. -/
inductive ChunkedStep (maxBufferSize : Int) (maxSubscribers : Nat) :
    ChunkedState → ChunkedState → Prop where
  | broadcast (st : ChunkedState) (message : String) (credits : Nat) :
      ChunkedStep maxBufferSize maxSubscribers st (chunkedBroadcast st message maxBufferSize credits)
  | attach (st : ChunkedState) :
      ChunkedStep maxBufferSize maxSubscribers st (chunkedAttach st maxBufferSize maxSubscribers).1
  | remove (st : ChunkedState) (i : Nat) :
      ChunkedStep maxBufferSize maxSubscribers st (chunkedRemove st i)
  | closeAll (st : ChunkedState) :
      ChunkedStep maxBufferSize maxSubscribers st (chunkedCloseAll st)
  | flushAt (st : ChunkedState) (i : Nat) (credits : Nat) :
      ChunkedStep maxBufferSize maxSubscribers st (chunkedFlushAt st i credits)

/-- Chunked-engine states reachable from the initial state. -/
def ChunkedReachable (maxBufferSize : Int) (maxSubscribers : Nat) (st : ChunkedState) : Prop :=
  Relation.ReflTransGen (ChunkedStep maxBufferSize maxSubscribers) chunkedInit st

/-- The supervisor state tracked by `ProcessManager`
(src/process-manager.ts lines 259-270): whether a child object exists and is
marked started, the restart counter, and whether a restart timer is armed. -/
structure PMState where
  processAlive : Bool
  started : Bool
  restartCount : Nat
  restartTimerArmed : Bool

/-- Embedding of `scheduleRestart` (src/process-manager.ts lines 375-394):
no-op when a timer is already armed; otherwise increment `restartCount` and
arm the timer. -/
def scheduleRestart (s : PMState) : PMState :=
  if s.restartTimerArmed then s
  else { s with restartCount := s.restartCount + 1, restartTimerArmed := true }

/-- Embedding of the child `exit` listener installed by `spawnProcess`
(src/process-manager.ts lines 346-356): mark the child stopped, then schedule
a restart whenever `code !== 0 || signal !== null`. -/
def handleExit (s : PMState) (code : Option Int) (signal : Option String) : PMState :=
  let s' := { s with started := false }
  if code ≠ some 0 ∨ signal ≠ none then scheduleRestart s' else s'

/-- Embedding of the synchronous state effect of `ProcessManager.stop`
(src/process-manager.ts lines 454-487): clear any pending restart timer.  The
method then closes stdin and sends SIGTERM (and SIGKILL after the grace
period); the child's resulting `exit` event is delivered to `handleExit`. -/
def pmStop (s : PMState) : PMState :=
  if s.restartTimerArmed then { s with restartTimerArmed := false } else s

/-- A declared configuration input (src/types.ts `McpInput`): an id and an
optional default value. -/
structure McpInput where
  id : String
  defaultValue : Option String

/-- JavaScript truthiness of an optional string: present and non-empty. -/
def truthy (v : Option String) : Bool :=
  match v with
  | some s => !s.isEmpty
  | none => false

/-- One command argument, as decomposed by the regex match
`arg.match(/\$\x7binput:([^\x7d]+)\x7d/)` in `resolveInputVariables`
(src/config.ts line 39): either no token occurs in the argument, or the
argument splits around the first `$\x7binput:ID\x7d` token. -/
inductive Arg where
  | plain (s : String)
  | token (pre : String) (id : String) (post : String)

/-- Embedding of the per-argument body of `resolveInputVariables`
(src/config.ts lines 37-74): consult `envOverrides`, then the environment at
`INPUT_` + uppercased id, then the environment at the id itself, then the
declared default of a matching input; throw when all fail.  `arg.replace`
substitutes the resolved value for the first token occurrence. -/
def resolveArg (env : String → Option String) (envOverrides : String → Option String)
    (inputs : List McpInput) : Arg → Except String String
  | .plain s => .ok s
  | .token pre id post =>
    if truthy (envOverrides id) then .ok (pre ++ (envOverrides id).getD "" ++ post)
    else if truthy (env ("INPUT_" ++ id.toUpper)) then
      .ok (pre ++ (env ("INPUT_" ++ id.toUpper)).getD "" ++ post)
    else if truthy (env id) then .ok (pre ++ (env id).getD "" ++ post)
    else
      match (inputs.find? (fun i => i.id = id)).bind (fun i => i.defaultValue) with
      | some d =>
        if !d.isEmpty then .ok (pre ++ d ++ post)
        else .error ("Cannot resolve input variable " ++ id)
      | none => .error ("Cannot resolve input variable " ++ id)

/-- Embedding of `resolveInputVariables` (src/config.ts lines 32-75):
`args.map` with the first failure propagating as the thrown error. -/
def resolveInputVariables (args : List Arg) (inputs : List McpInput)
    (env : String → Option String) (envOverrides : String → Option String) :
    Except String (List String) :=
  args.mapM (resolveArg env envOverrides inputs)

/-- Outcome of one `spawnProcess` call as far as control flow is observable. -/
inductive SpawnOutcome where
  | spawned (resolvedArgs : List String)
  | restartScheduled

/-- Embedding of `ProcessManager.spawnProcess` (src/process-manager.ts lines
300-370) restricted to argument resolution and error handling: the call site
passes the empty inputs list (`resolveInputVariables(this.tool.args, [])`) and
no overrides; a thrown resolution error is caught by the surrounding
`try/catch`, which reports it and calls `scheduleRestart` — the process does
not exit. -/
def spawnProcess (args : List Arg) (env : String → Option String) : SpawnOutcome :=
  match resolveInputVariables args [] env (fun _ => none) with
  | .ok resolved => .spawned resolved
  | .error _ => .restartScheduled

/-- Character-list prefix test (helper for substring search). -/
def prefixAt (pat s : List Char) : Bool :=
  match pat, s with
  | [], _ => true
  | _ :: _, [] => false
  | a :: as, b :: bs => a = b && prefixAt as bs

/-- Substring occurrence test, modelling `String.prototype.includes`. -/
def containsSubstr (pat : List Char) : List Char → Bool
  | [] => prefixAt pat []
  | c :: rest => prefixAt pat (c :: rest) || containsSubstr pat rest

/-- Models `contentType.includes('application/json')`. -/
def containsAppJson (ct : String) : Bool :=
  containsSubstr "application/json".data ct.data

/-- The Content-Type guard of `handlePostMcp` (src/server.ts lines 353-368):
header present and including `application/json`. -/
def contentTypeOk (ct : Option String) : Bool :=
  match ct with
  | some s => containsAppJson s
  | none => false

/-- Models `req.body && typeof req.body === 'object'` on a parsed JSON body:
true exactly for objects and arrays (`null` is falsy). -/
def isObjOrArr (j : Json) : Bool :=
  match j with
  | .obj _ => true
  | .arr _ => true
  | _ => false

/-- The envelopes extracted by `handlePostMcp` (src/server.ts lines 386-403):
a batch is parsed element-wise, a single message is validated and wrapped in a
one-element list. -/
def envelopesOf (body : Json) : Except String (List Json) :=
  match body with
  | .arr _ => parseJsonRpcBatch body
  | _ => (validateJsonRpcMessage body).map (fun m => [m])

/-- Observable result of one `POST /mcp` request: HTTP status, the
`messageCount` of the acceptance body, and the strings written to child stdin
by this request (empty when rejected or when delivery is deferred by the
lazy-start timer). -/
structure McpPostResult where
  status : Nat
  messageCount : Option Nat
  written : List String

/-- Embedding of `BridgeServer.handlePostMcp` together with `writeMessages`
(src/server.ts lines 341-478): validate Content-Type, then the body type,
then the envelopes; with the child running, write each envelope through
`formatJsonRpcMessage` to stdin in order; otherwise defer via lazy start or
fail with 503.  Success answers 202 with the envelope count. -/
def handlePostMcp (ct : Option String) (body : Option Json) (running lazyStart : Bool) :
    McpPostResult :=
  if !contentTypeOk ct then { status := 400, messageCount := none, written := [] }
  else
    match body with
    | none => { status := 400, messageCount := none, written := [] }
    | some b =>
      if !isObjOrArr b then { status := 400, messageCount := none, written := [] }
      else
        match envelopesOf b with
        | .error _ => { status := 400, messageCount := none, written := [] }
        | .ok msgs =>
          if !running then
            if lazyStart then { status := 202, messageCount := some msgs.length, written := [] }
            else { status := 503, messageCount := none, written := [] }
          else
            { status := 202, messageCount := some msgs.length,
              written := msgs.map formatJsonRpcMessage }

/-! Spec-side definitions, written from the specification's words, for
comparison against the embedded code. -/

/-- Number of envelope shapes (spec §3) an object satisfies: Request (string
`method` with an `id`), Notification (string `method`, no `id`), Response
(`id` present and exactly one of `result` or `error`). -/
def specShapeCount (fields : List (String × Json)) : Nat :=
  (if methodIsString fields && hasField fields "id" then 1 else 0) +
  (if methodIsString fields && !hasField fields "id" then 1 else 0) +
  (if hasField fields "id" && (hasField fields "result" != hasField fields "error") then 1 else 0)

/-- The spec's envelope predicate: a JSON object with `jsonrpc` equal to
`"2.0"` satisfying exactly one of the three shapes. -/
def specValidEnvelope (j : Json) : Bool :=
  match j with
  | .obj fields => jsonrpcIs20 fields && (specShapeCount fields == 1)
  | _ => false

/-- What `validateJsonRpcMessage` actually accepts, as a flat predicate: a
JSON object with version `"2.0"` carrying either a string `method` (whatever
else is present) or an `id` together with at least one of `result`/`error`
(possibly both). -/
def codeValidEnvelope (j : Json) : Bool :=
  match j with
  | .obj fields =>
    jsonrpcIs20 fields &&
      (methodIsString fields ||
        ((hasField fields "result" || hasField fields "error") && hasField fields "id"))
  | _ => false

/-- The acceptance condition of claim C3 as stated: the body is a single
valid envelope, or a non-empty array all of whose elements are valid, and the
child is running or lazy-start is enabled. -/
def specPostAccepts (body : Json) (running lazyStart : Bool) : Bool :=
  ((validateJsonRpcMessage body).isOk ||
    (match body with
     | .arr (_ :: _) => (parseJsonRpcBatch body).isOk
     | _ => false)) &&
  (running || lazyStart)

/-- Greedy fitting prefix: the messages delivered by the replay drain — walk
in order, stop forever at the first message whose cumulative size would
exceed the ceiling. -/
def fitTake (maxBufferSize : Int) (used : Int) : List String → List String
  | [] => []
  | m :: rest =>
    if used + byteLen m > maxBufferSize then []
    else m :: fitTake maxBufferSize (used + byteLen m) rest

end Bridge

namespace Bridge

/-- A well-formed request envelope used to instantiate theorems. -/
def pingRequest : Json :=
  .obj [("jsonrpc", .str "2.0"), ("id", .num 1), ("method", .str "ping")]

/-- An object carrying both `result` and `error` alongside an `id` — the
spec's envelope rules reject it, the code accepts it. -/
def bothResultAndError : Json :=
  .obj [("jsonrpc", .str "2.0"), ("id", .num 1), ("result", .null), ("error", .null)]

/-- The accounting invariant of a subscriber queue: the tracked byte counter
equals the queue's total UTF-8 size and stays within the ceiling. -/
def bufferInvariant (maxBufferSize : Int) (sub : StreamSubscriber) : Prop :=
  sub.bufferSize = sumBytes sub.buffer ∧ sub.bufferSize ≤ maxBufferSize

/-- The replay-buffer bookkeeping invariant of the chunked-ndjson engine:
the replay buffer is populated only while the subscriber set is empty, its
tracked byte size is the sum of its messages, and it stays within the
ceiling. -/
def replayInvariant (maxBufferSize : Int) (st : ChunkedState) : Prop :=
  (st.subs ≠ [] → st.globalMessageBuffer = [] ∧ st.globalBufferSize = 0) ∧
  st.globalBufferSize = sumBytes st.globalMessageBuffer ∧
  st.globalBufferSize ≤ maxBufferSize

/-- A chunked-engine state with a populated replay buffer, used to
instantiate the drain theorems: three pending messages of 3, 6 and 1 bytes. -/
def replayDemoState : ChunkedState :=
  { subs := [], globalMessageBuffer := ["aaa", "bbbbbb", "c"], globalBufferSize := 10 }

/-- C1 counterexample.  The claim says every object carrying both `result`
and `error` is rejected; `validateJsonRpcMessage` accepts such an object (its
response arm only requires `result` or `error` to be present alongside `id`),
while the spec-side exactly-one-shape predicate rejects it. -/
theorem c1_counterexample :
    (validateJsonRpcMessage bothResultAndError).isOk = true ∧
      specValidEnvelope bothResultAndError = false := by
  constructor <;> rfl

/-- C1 amended: envelope validation accepts a JSON value if and only if it is
a JSON object with `jsonrpc` equal to `"2.0"` that carries a string `method`
(regardless of any `id`, `result` or `error` fields), or carries an `id`
together with at least one of `result`/`error` (both may be present).
Non-objects and other version strings are rejected. -/
theorem c1_amended_validation_characterization (j : Json) :
    (validateJsonRpcMessage j).isOk = codeValidEnvelope j := by
  cases j <;> simp only [validateJsonRpcMessage, codeValidEnvelope] <;>
    try rfl
  case obj fields =>
    by_cases h20 : jsonrpcIs20 fields
    · simp only [h20, if_true, Bool.true_and]
      by_cases hm : methodIsString fields
      · simp [hm, Except.isOk, Except.toBool]
      · simp only [hm, Bool.false_or, if_false]
        by_cases hre : ((hasField fields "result" || hasField fields "error") && hasField fields "id") = true
        · simp [hre, Except.isOk, Except.toBool]
        · simp only [Bool.not_eq_true] at hre
          simp [hre, Except.isOk, Except.toBool]
    · simp only [Bool.not_eq_true] at h20
      simp [h20, Except.isOk, Except.toBool]

/-- The trailing segment after the last newline contains no newline. -/
theorem splitLines_rest_no_nl : ∀ (s : List Char), '\n' ∉ (splitLines s).2
  | [] => by simp [splitLines]
  | c :: cs => by
    have ih := splitLines_rest_no_nl cs
    by_cases hc : c = '\n'
    · simpa [splitLines, hc] using ih
    · rcases hp : splitLines cs with ⟨ls, r⟩
      rw [hp] at ih
      cases ls with
      | nil =>
        simp only [splitLines, hp, if_neg hc]
        intro hmem
        rcases List.mem_cons.mp hmem with h1 | h2
        · exact hc h1.symm
        · exact ih h2
      | cons l ls' => simpa [splitLines, hp, hc] using ih

/-- A newline-free text splits into no complete line and itself as trailing
segment. -/
theorem splitLines_of_no_nl : ∀ (s : List Char), '\n' ∉ s → splitLines s = ([], s)
  | [], _ => rfl
  | c :: cs, h => by
    have hc : c ≠ '\n' := fun hh => h (hh ▸ List.mem_cons_self c cs)
    have ih := splitLines_of_no_nl cs (fun hm => h (List.mem_cons_of_mem _ hm))
    simp [splitLines, ih, hc]

/-- Unfolding step: a newline starts a fresh complete line. -/
theorem splitLines_cons_nl (cs : List Char) :
    splitLines ('\n' :: cs) = ([] :: (splitLines cs).1, (splitLines cs).2) := by
  simp [splitLines]

/-- Unfolding step: a non-newline character joins the first complete line, or
the trailing segment when no complete line follows. -/
theorem splitLines_cons_other (c : Char) (cs : List Char) (hc : c ≠ '\n') :
    splitLines (c :: cs) =
      (match splitLines cs with
       | ([], r) => ([], c :: r)
       | (l :: ls, r) => ((c :: l) :: ls, r)) := by
  simp [splitLines, hc]

/-- How splitting acts on concatenation: the complete lines of `x ++ y` are
the complete lines of `x` followed by the complete lines of the trailing
segment of `x` prepended to `y`. -/
theorem splitLines_append : ∀ (x y : List Char),
    splitLines (x ++ y) =
      ((splitLines x).1 ++ (splitLines ((splitLines x).2 ++ y)).1,
       (splitLines ((splitLines x).2 ++ y)).2)
  | [], y => by simp [splitLines]
  | c :: x, y => by
    have ih := splitLines_append x y
    rcases hx : splitLines x with ⟨ls, r⟩
    rw [hx] at ih
    simp only at ih
    by_cases hc : c = '\n'
    · subst hc
      rw [List.cons_append, splitLines_cons_nl, splitLines_cons_nl, ih, hx]
      simp
    · cases ls with
      | nil =>
        rcases hq : splitLines (r ++ y) with ⟨qs, qr⟩
        rw [hq] at ih
        simp only [List.nil_append] at ih
        rw [List.cons_append, splitLines_cons_other c (x ++ y) hc, ih,
          splitLines_cons_other c x hc, hx]
        simp only [List.cons_append]
        rw [splitLines_cons_other c (r ++ y) hc, hq]
        cases qs <;> simp
      | cons l ls' =>
        rw [List.cons_append, splitLines_cons_other c (x ++ y) hc, ih,
          splitLines_cons_other c x hc, hx]
        simp

/-- Characterization of the chunked splitter run: starting from a newline-free
buffer, processing any chunk sequence yields exactly the trimmed non-empty
complete lines of the concatenated stream, in order, and retains the segment
after the last newline as the final buffer. -/
theorem processChunksFrom_spec : ∀ (cs : List (List Char)) (buf : List Char), '\n' ∉ buf →
    processChunksFrom buf cs =
      (((splitLines (buf ++ cs.flatten)).1.map jsTrim).filter (fun l => !l.isEmpty),
       (splitLines (buf ++ cs.flatten)).2)
  | [], buf, h => by
    simp [processChunksFrom, splitLines_of_no_nl buf h]
  | chunk :: cs, buf, _h => by
    have hrest : '\n' ∉ (splitLines (buf ++ chunk)).2 := splitLines_rest_no_nl (buf ++ chunk)
    have ih := processChunksFrom_spec cs (splitLines (buf ++ chunk)).2 hrest
    simp only [processChunksFrom, processChunk, List.flatten_cons, ← List.append_assoc, ih]
    rw [splitLines_append (buf ++ chunk) cs.flatten]
    simp [List.filter_append]

/-- C4 counterexample.  The chunk `" \n"` carries one complete
(newline-terminated) line, yet the splitter emits no frame for it: the line's
trimmed content is empty and empty segments are discarded, so "exactly one
frame per complete line" fails on whitespace-only lines. -/
theorem c4_counterexample_whitespace_line :
    (splitLines [' ', '\n']).1.length = 1 ∧ (processChunks [[' ', '\n']]).1.length = 0 := by
  constructor <;> rfl

/-- C4 amended: across any partition of the child's stdout byte stream into
chunks, the splitter emits exactly one frame — the trimmed line content — for
every complete line whose trimmed content is non-empty (whitespace-only
complete lines are discarded), in child emission order, and the final partial
segment after the last newline is retained in the buffer. -/
theorem c4_amended_splitter (chunks : List (List Char)) :
    processChunks chunks =
      (((splitLines chunks.flatten).1.map jsTrim).filter (fun l => !l.isEmpty),
       (splitLines chunks.flatten).2) := by
  simpa [processChunks] using processChunksFrom_spec chunks [] (by simp)

/-- Digit characters are never a newline. -/
theorem digitChar_ne_nl (n : Nat) (h : n < 16) : digitChar n ≠ '\n' := by
  revert h
  revert n
  decide

/-- Decimal digit strings contain no newline. -/
theorem natDigits_no_nl (n : Nat) : '\n' ∉ natDigits n := by
  induction n using Nat.strong_induction_on with
  | _ n ih =>
    unfold natDigits
    split
    · intro hmem
      rcases List.mem_cons.mp hmem with h1 | h2
      · exact digitChar_ne_nl n (by omega) h1.symm
      · simp at h2
    · intro hmem
      rcases List.mem_append.mp hmem with h1 | h2
      · exact ih (n / 10) (Nat.div_lt_self (by omega) (by omega)) h1
      · rcases List.mem_cons.mp h2 with h3 | h4
        · exact digitChar_ne_nl (n % 10) (by omega) h3.symm
        · simp at h4

/-- Integer renderings contain no newline. -/
theorem intRepr_no_nl (n : Int) : '\n' ∉ (intRepr n).data := by
  cases n with
  | ofNat m => exact natDigits_no_nl m
  | negSucc m =>
    intro hmem
    rcases List.mem_cons.mp hmem with h1 | h2
    · exact absurd h1 (by decide)
    · exact natDigits_no_nl (m + 1) h2

/-- Escaped characters contain no newline (a raw newline is turned into the
two characters backslash-n). -/
theorem escChar_no_nl (c : Char) : '\n' ∉ escChar c := by
  unfold escChar
  split
  · decide
  split
  · decide
  split
  · decide
  split
  · decide
  split
  · decide
  split
  · decide
  split
  · decide
  split
  · intro hmem
    simp only [List.mem_cons, List.not_mem_nil, or_false] at hmem
    rcases hmem with h | h | h | h | h | h
    · exact absurd h (by decide)
    · exact absurd h (by decide)
    · exact absurd h (by decide)
    · exact absurd h (by decide)
    · exact digitChar_ne_nl _ (by omega) h.symm
    · exact digitChar_ne_nl _ (Nat.mod_lt _ (by omega)) h.symm
  · next hq hbs hb hf hn hr ht _ =>
    intro hmem
    rcases List.mem_cons.mp hmem with h1 | h2
    · exact hn h1.symm
    · simp at h2

/-- JSON string literals serialize without any newline. -/
theorem serializeStr_no_nl (s : String) : '\n' ∉ (serializeStr s).data := by
  unfold serializeStr
  rw [String.data_append, String.data_append]
  intro hmem
  rcases List.mem_append.mp hmem with h1 | h2
  · rcases List.mem_append.mp h1 with h3 | h4
    · exact absurd h3 (by decide)
    · rcases List.mem_flatten.mp h4 with ⟨piece, hpiece, hin⟩
      rcases List.mem_map.mp hpiece with ⟨c, _, rfl⟩
      exact escChar_no_nl c hin
  · exact absurd h2 (by decide)

mutual

/-- Compact JSON serializations contain no raw newline — each message is a
single line on the wire. -/
theorem serialize_no_nl : ∀ (j : Json), '\n' ∉ (serialize j).data
  | .null => by decide
  | .bool true => by decide
  | .bool false => by decide
  | .num n => intRepr_no_nl n
  | .str s => serializeStr_no_nl s
  | .arr elems => by
    have h := serializeItems_no_nl elems
    simp only [serialize, String.data_append]
    intro hmem
    rcases List.mem_append.mp hmem with h1 | h2
    · rcases List.mem_append.mp h1 with h3 | h4
      · exact absurd h3 (by decide)
      · exact h h4
    · exact absurd h2 (by decide)
  | .obj fields => by
    have h := serializeFields_no_nl fields
    simp only [serialize, String.data_append]
    intro hmem
    rcases List.mem_append.mp hmem with h1 | h2
    · rcases List.mem_append.mp h1 with h3 | h4
      · exact absurd h3 (by decide)
      · exact h h4
    · exact absurd h2 (by decide)

/-- Serialized element lists contain no raw newline. -/
theorem serializeItems_no_nl : ∀ (xs : List Json), '\n' ∉ (serializeItems xs).data
  | [] => by decide
  | [j] => serialize_no_nl j
  | j :: j2 :: rest => by
    have h1 := serialize_no_nl j
    have h2 := serializeItems_no_nl (j2 :: rest)
    simp only [serializeItems, String.data_append]
    intro hmem
    rcases List.mem_append.mp hmem with ha | hb
    · rcases List.mem_append.mp ha with hc | hd
      · exact h1 hc
      · exact absurd hd (by decide)
    · exact h2 hb

/-- Serialized field lists contain no raw newline. -/
theorem serializeFields_no_nl : ∀ (fs : List (String × Json)), '\n' ∉ (serializeFields fs).data
  | [] => by decide
  | [(k, v)] => by
    have h1 := serializeStr_no_nl k
    have h2 := serialize_no_nl v
    simp only [serializeFields, String.data_append]
    intro hmem
    rcases List.mem_append.mp hmem with ha | hb
    · rcases List.mem_append.mp ha with hc | hd
      · exact h1 hc
      · exact absurd hd (by decide)
    · exact h2 hb
  | (k, v) :: f :: rest => by
    have h1 := serializeStr_no_nl k
    have h2 := serialize_no_nl v
    have h3 := serializeFields_no_nl (f :: rest)
    simp only [serializeFields, String.data_append]
    intro hmem
    rcases List.mem_append.mp hmem with ha | hb
    · rcases List.mem_append.mp ha with hc | hd
      · rcases List.mem_append.mp hc with he | hf
        · rcases List.mem_append.mp he with hg | hh
          · exact h1 hg
          · exact absurd hh (by decide)
        · exact h2 hf
      · exact absurd hd (by decide)
    · exact h3 hb

end

/-- The bytes of one formatted message: serialization plus one newline. -/
theorem formatJsonRpcMessage_data (m : Json) :
    (formatJsonRpcMessage m).data = (serialize m).data ++ ['\n'] := by
  simp [formatJsonRpcMessage, String.data_append]

/-- A newline-free line followed by a newline splits off as one complete
line. -/
theorem splitLines_line_append : ∀ (s rest : List Char), '\n' ∉ s →
    splitLines (s ++ '\n' :: rest) = (s :: (splitLines rest).1, (splitLines rest).2)
  | [], rest, _ => by rw [List.nil_append, splitLines_cons_nl]
  | c :: s, rest, h => by
    have hc : c ≠ '\n' := fun hh => h (hh ▸ List.mem_cons_self c s)
    have ih := splitLines_line_append s rest (fun hm => h (List.mem_cons_of_mem _ hm))
    rw [List.cons_append, splitLines_cons_other c _ hc, ih]

/-- The concatenated stdin writes of a message list split into exactly one
complete line per message, each equal to the message's compact serialization,
with nothing left over. -/
theorem writtenLines : ∀ (msgs : List Json),
    splitLines ((msgs.map (fun m => (formatJsonRpcMessage m).data)).flatten) =
      (msgs.map (fun m => (serialize m).data), [])
  | [] => by simp [splitLines]
  | m :: rest => by
    have ih := writtenLines rest
    simp only [formatJsonRpcMessage_data] at ih
    simp only [List.map_cons, List.flatten_cons, formatJsonRpcMessage_data, List.append_assoc,
      List.singleton_append]
    rw [splitLines_line_append _ _ (serialize_no_nl m), ih]

/-- A successful envelope extraction implies the body was an object or an
array. -/
theorem envelopesOf_obj_or_arr (body : Json) (msgs : List Json)
    (h : envelopesOf body = .ok msgs) : isObjOrArr body = true := by
  cases body <;> first | rfl | (exact absurd h (by simp [envelopesOf, validateJsonRpcMessage, Except.map]))

/-- C2.  With the child running, a `POST /mcp` carrying envelopes E₁…Eₙ
(n = 1 for a single object) writes to child stdin exactly the strings
`compactJson(Eᵢ) + "\n"` in body order, and the concatenation of those writes
splits into exactly n newline-terminated lines, the i-th being the compact
serialization of Eᵢ, with no other bytes interleaved from the request. -/
theorem c2_post_stdin_lines (ct : Option String) (body : Json) (msgs : List Json)
    (lazyStart : Bool) (hct : contentTypeOk ct = true) (hv : envelopesOf body = .ok msgs) :
    (handlePostMcp ct (some body) true lazyStart).written = msgs.map formatJsonRpcMessage ∧
    splitLines (((handlePostMcp ct (some body) true lazyStart).written.map String.data).flatten) =
      (msgs.map (fun m => (serialize m).data), []) := by
  have hobj := envelopesOf_obj_or_arr body msgs hv
  have hw : (handlePostMcp ct (some body) true lazyStart).written = msgs.map formatJsonRpcMessage := by
    simp [handlePostMcp, hct, hobj, hv]
  refine ⟨hw, ?_⟩
  rw [hw, List.map_map]
  exact writtenLines msgs

/-- C2 witness: a concrete ping request posted with the child running. -/
theorem c2_post_stdin_lines_witness :
    (handlePostMcp (some "application/json") (some pingRequest) true true).written =
      [pingRequest].map formatJsonRpcMessage ∧
    splitLines (((handlePostMcp (some "application/json") (some pingRequest) true true).written.map
        String.data).flatten) =
      ([pingRequest].map (fun m => (serialize m).data), []) :=
  c2_post_stdin_lines (some "application/json") pingRequest [pingRequest] true (by rfl) (by rfl)

/-- C3 counterexample.  The empty array satisfies `Array.isArray` and
`parseJsonRpcBatch` maps over no elements, so `POST /mcp` answers 202 with
`messageCount: 0` — although the body is neither a valid single envelope nor
a non-empty array of valid envelopes, contradicting the claim's
"if and only if". -/
theorem c3_counterexample_empty_batch :
    (handlePostMcp (some "application/json") (some (.arr [])) true true).status = 202 ∧
    (handlePostMcp (some "application/json") (some (.arr [])) true true).messageCount = some 0 ∧
    specPostAccepts (.arr []) true true = false := by
  exact ⟨rfl, rfl, rfl⟩

/-- C3 amended: `POST /mcp` answers 202 with `messageCount = n` iff the
Content-Type includes `application/json`, the body is a single valid envelope
or a **possibly empty** array all of whose elements are valid envelopes, and
the child is running or lazy start is enabled; 400 iff the Content-Type is
wrong, the body is absent or not an object/array, or envelope extraction
fails (whole batch rejected); 503 iff everything validated but the child is
not running and lazy start is disabled. -/
theorem c3_amended_status_characterization (ct : Option String) (body : Option Json)
    (running lazyStart : Bool) :
    ((handlePostMcp ct body running lazyStart).status = 202 ↔
      (contentTypeOk ct = true ∧ ∃ b msgs, body = some b ∧ envelopesOf b = .ok msgs ∧
        (running = true ∨ lazyStart = true))) ∧
    ((handlePostMcp ct body running lazyStart).status = 503 ↔
      (contentTypeOk ct = true ∧ running = false ∧ lazyStart = false ∧
        ∃ b msgs, body = some b ∧ envelopesOf b = .ok msgs)) ∧
    ((handlePostMcp ct body running lazyStart).status = 400 ↔
      (contentTypeOk ct = false ∨ body = none ∨
        ∃ b, body = some b ∧ (envelopesOf b).isOk = false)) ∧
    (∀ b msgs, body = some b → envelopesOf b = .ok msgs →
      (handlePostMcp ct body running lazyStart).status = 202 →
      (handlePostMcp ct body running lazyStart).messageCount = some msgs.length) := by
  rcases body with _ | b
  · by_cases hct : contentTypeOk ct <;> simp [handlePostMcp, hct]
  · by_cases hct : contentTypeOk ct
    · by_cases hobj : isObjOrArr b
      · rcases henv : envelopesOf b with e | msgs
        · simp [handlePostMcp, hct, hobj, henv, Except.isOk, Except.toBool]
        · cases running
          · cases lazyStart
            · simp [handlePostMcp, hct, hobj, henv, Except.isOk, Except.toBool]
            · simp [handlePostMcp, hct, hobj, henv, Except.isOk, Except.toBool]
              rintro b1 msgs1 rfl h
              rw [henv] at h
              injection h with h
              rw [h]
          · simp [handlePostMcp, hct, hobj, henv, Except.isOk, Except.toBool]
            rintro b1 msgs1 rfl h
            rw [henv] at h
            injection h with h
            rw [h]
      · have hiso : (envelopesOf b).isOk = false := by
          cases hh : envelopesOf b with
          | error e => rfl
          | ok msgs => exact absurd (envelopesOf_obj_or_arr b msgs hh) (by simp [hobj])
        have hne : ∀ msgs, envelopesOf b ≠ Except.ok msgs := by
          intro msgs hh
          rw [hh] at hiso
          exact absurd hiso (by simp [Except.isOk, Except.toBool])
        simp [handlePostMcp, hct, hobj, hiso, hne]
    · simp [handlePostMcp, hct]

/-- Byte lengths are non-negative. -/
theorem byteLen_nonneg (s : String) : 0 ≤ byteLen s :=
  Int.ofNat_nonneg _

/-- `sumBytes` over an appended singleton. -/
theorem sumBytes_append_singleton (msgs : List String) (m : String) :
    sumBytes (msgs ++ [m]) = sumBytes msgs + byteLen m := by
  induction msgs with
  | nil => simp [sumBytes]
  | cons x rest ih => simp [sumBytes, ih]; ring

/-- A successful or refused `addToBuffer` keeps the invariant. -/
theorem addToBuffer_preserves (sub : StreamSubscriber) (msg : String) (maxBufferSize : Int)
    (h : bufferInvariant maxBufferSize sub) :
    bufferInvariant maxBufferSize (addToBuffer sub msg maxBufferSize).1 := by
  unfold bufferInvariant at *
  simp only [addToBuffer]
  split
  · exact h
  · next hle =>
    refine ⟨?_, ?_⟩ <;> simp [sumBytes_append_singleton] <;> omega

/-- A flush of any number of accepted writes keeps the invariant. -/
theorem flushSubscriber_preserves (maxBufferSize : Int) :
    ∀ (credits : Nat) (sub : StreamSubscriber), bufferInvariant maxBufferSize sub →
      bufferInvariant maxBufferSize (flushSubscriber sub credits)
  | 0, sub, h => h
  | _ + 1, ⟨[], _⟩, h => h
  | k + 1, ⟨m :: rest, size⟩, h => by
    have hlen := byteLen_nonneg m
    have hmid : bufferInvariant maxBufferSize { buffer := rest, bufferSize := size - byteLen m } := by
      unfold bufferInvariant at h ⊢
      simp only [sumBytes] at h
      exact ⟨by simp; omega, by simp; omega⟩
    exact flushSubscriber_preserves maxBufferSize k _ hmid

/-- The replay delivery loop keeps the invariant. -/
theorem deliverLoop_preserves (maxBufferSize : Int) :
    ∀ (msgs : List String) (sub : StreamSubscriber), bufferInvariant maxBufferSize sub →
      bufferInvariant maxBufferSize (deliverLoop sub msgs maxBufferSize)
  | [], _, h => h
  | m :: rest, sub, h => by
    unfold deliverLoop
    split
    · exact h
    · rcases ha : addToBuffer sub m maxBufferSize with ⟨sub', flag⟩
      cases flag with
      | false => simp only [ha]; exact h
      | true =>
        have h' : bufferInvariant maxBufferSize sub' := by
          have := addToBuffer_preserves sub m maxBufferSize h
          rw [ha] at this
          exact this
        simp only [ha]
        exact deliverLoop_preserves maxBufferSize rest sub' h'

/-- C5.  For every subscriber of either engine, after any sequence of engine
operations from attachment (enqueues, flushes — including drain-resumed
flushes —, replay drains, evictions and closes), `bufferSize` equals the sum
of the UTF-8 byte lengths of the queued messages and never exceeds
`maxBufferSize`. -/
theorem c5_buffer_invariant (maxBufferSize : Int) (sub : StreamSubscriber)
    (hmax : 0 ≤ maxBufferSize) (hreach : SubReachable maxBufferSize sub) :
    sub.bufferSize = sumBytes sub.buffer ∧ sub.bufferSize ≤ maxBufferSize := by
  induction hreach with
  | refl => exact ⟨rfl, hmax⟩
  | tail _ hstep ih =>
    cases hstep with
    | add msg h => exact addToBuffer_preserves _ msg maxBufferSize ih
    | flush k => exact flushSubscriber_preserves maxBufferSize k _ ih
    | deliver msgs => exact deliverLoop_preserves maxBufferSize msgs _ ih
    | clear => exact ⟨rfl, hmax⟩

/-- C5 witness: after one successful enqueue from the fresh state with
ceiling 16, the counter matches the queue's byte total and is within bounds. -/
theorem c5_buffer_invariant_witness :
    (addToBuffer { buffer := [], bufferSize := 0 } "ab" 16).1.bufferSize =
      sumBytes (addToBuffer { buffer := [], bufferSize := 0 } "ab" 16).1.buffer ∧
    (addToBuffer { buffer := [], bufferSize := 0 } "ab" 16).1.bufferSize ≤ 16 :=
  c5_buffer_invariant 16 _ (by decide)
    (Relation.ReflTransGen.single (SubStep.add { buffer := [], bufferSize := 0 } "ab" rfl))

/-- The delivery loop appends to the subscriber's queue exactly the greedy
fitting prefix of the replayed messages: it stops at the first message whose
cumulative size would exceed the ceiling and delivers nothing after it. -/
theorem deliverLoop_buffer (maxBufferSize : Int) :
    ∀ (msgs : List String) (sub : StreamSubscriber), sub.bufferSize = sumBytes sub.buffer →
      (deliverLoop sub msgs maxBufferSize).buffer =
        sub.buffer ++ fitTake maxBufferSize sub.bufferSize msgs
  | [], sub, _ => by simp [deliverLoop, fitTake]
  | m :: rest, sub, h => by
    unfold deliverLoop fitTake
    by_cases hover : sub.bufferSize + byteLen m > maxBufferSize
    · rw [if_pos (by simp [isBufferOverLimit]; omega), if_pos hover]
      simp
    · rw [if_neg (by simp [isBufferOverLimit]; omega), if_neg hover]
      have hadd : addToBuffer sub m maxBufferSize =
          ({ buffer := sub.buffer ++ [m], bufferSize := sub.bufferSize + byteLen m }, true) := by
        simp only [addToBuffer]
        rw [if_neg hover]
      rw [hadd]
      have h' : ({ buffer := sub.buffer ++ [m], bufferSize := sub.bufferSize + byteLen m } :
          StreamSubscriber).bufferSize =
          sumBytes ({ buffer := sub.buffer ++ [m], bufferSize := sub.bufferSize + byteLen m } :
            StreamSubscriber).buffer := by
        simp [sumBytes_append_singleton, h]
      rw [deliverLoop_buffer maxBufferSize rest _ h']
      simp

/-- What an under-capacity attach does: the new subscriber is registered (not
evicted), its queue is the greedy fitting prefix of the replay buffer, and
the replay buffer is cleared unconditionally. -/
theorem chunkedAttach_drain (st : ChunkedState) (maxBufferSize : Int) (maxSubscribers : Nat)
    (hlt : st.subs.length < maxSubscribers) :
    (chunkedAttach st maxBufferSize maxSubscribers).2 =
      some (fitTake maxBufferSize 0 st.globalMessageBuffer) ∧
    (chunkedAttach st maxBufferSize maxSubscribers).1.globalMessageBuffer = [] ∧
    (chunkedAttach st maxBufferSize maxSubscribers).1.globalBufferSize = 0 ∧
    (chunkedAttach st maxBufferSize maxSubscribers).1.subs =
      st.subs ++ [deliverLoop { buffer := [], bufferSize := 0 } st.globalMessageBuffer maxBufferSize] := by
  have hge : ¬ st.subs.length ≥ maxSubscribers := by omega
  have hfresh : (({ buffer := [], bufferSize := 0 } : StreamSubscriber)).bufferSize =
      sumBytes (({ buffer := [], bufferSize := 0 } : StreamSubscriber)).buffer := rfl
  have hb := deliverLoop_buffer maxBufferSize st.globalMessageBuffer
    { buffer := [], bufferSize := 0 } hfresh
  unfold chunkedAttach deliverBufferedMessages
  rw [if_neg hge]
  refine ⟨?_, rfl, rfl, rfl⟩
  show some (deliverLoop { buffer := [], bufferSize := 0 } st.globalMessageBuffer maxBufferSize).buffer =
      some (fitTake maxBufferSize 0 st.globalMessageBuffer)
  rw [hb]
  rfl

/-- Every chunked-engine operation preserves the replay invariant. -/
theorem replayInvariant_step (maxBufferSize : Int) (maxSubscribers : Nat)
    (a b : ChunkedState) (hmax : 0 ≤ maxBufferSize)
    (hstep : ChunkedStep maxBufferSize maxSubscribers a b)
    (ih : replayInvariant maxBufferSize a) : replayInvariant maxBufferSize b := by
  obtain ⟨ih1, ih2, ih3⟩ := ih
  cases hstep with
  | broadcast message credits =>
    unfold chunkedBroadcast
    split
    · exact ⟨ih1, ih2, ih3⟩
    · rcases hsubs : a.subs with _ | ⟨s, rest⟩
      · show replayInvariant maxBufferSize
            (if a.globalBufferSize + byteLen message ≤ maxBufferSize then
              { subs := [], globalMessageBuffer := a.globalMessageBuffer ++ [message],
                globalBufferSize := a.globalBufferSize + byteLen message }
             else a)
        split
        · next hle =>
          exact ⟨fun h => absurd rfl h, by simp [sumBytes_append_singleton, ih2], hle⟩
        · exact ⟨ih1, ih2, ih3⟩
      · have hglobal := ih1 (by rw [hsubs]; simp)
        exact ⟨fun _ => hglobal, ih2, ih3⟩
  | attach =>
    unfold chunkedAttach
    split
    · exact ⟨ih1, ih2, ih3⟩
    · exact ⟨fun _ => ⟨rfl, rfl⟩, rfl, hmax⟩
  | remove i =>
    refine ⟨?_, ih2, ih3⟩
    intro h
    apply ih1
    intro hnil
    apply h
    show (a.subs.eraseIdx i) = []
    simp [hnil]
  | closeAll =>
    exact ⟨fun h => absurd rfl h, ih2, ih3⟩
  | flushAt i credits =>
    refine ⟨?_, ih2, ih3⟩
    intro h
    apply ih1
    intro hnil
    apply h
    show (a.subs.mapIdx fun j sub => if j = i then flushSubscriber sub credits else sub) = []
    simp [hnil]

/-- Every reachable chunked-engine state satisfies the replay invariant. -/
theorem replayInvariant_of_reachable (maxBufferSize : Int) (maxSubscribers : Nat)
    (st : ChunkedState) (hmax : 0 ≤ maxBufferSize)
    (hreach : ChunkedReachable maxBufferSize maxSubscribers st) :
    replayInvariant maxBufferSize st := by
  induction hreach with
  | refl => exact ⟨fun h => absurd rfl h, rfl, hmax⟩
  | tail _ hstep ih =>
    exact replayInvariant_step maxBufferSize maxSubscribers _ _ hmax hstep ih

/-- C6.  For every reachable state of the chunked-ndjson engine:
(a) while the subscriber set is empty, a broadcast (of a non-whitespace
message) is appended to the replay buffer exactly when that keeps the replay
byte total within `maxBufferSize`, and is dropped otherwise; (b) an attach
under the subscriber ceiling receives the replay contents in order — subject
to the per-subscriber ceiling via the greedy fitting prefix — and the replay
buffer is cleared; (c) an attach while another subscriber exists receives no
replayed message (the replay buffer is necessarily empty then, and in
particular any attach after the first drain replays nothing until the engine
is again empty of subscribers). -/
theorem c6_replay_protocol (maxBufferSize : Int) (maxSubscribers : Nat) (st : ChunkedState)
    (hmax : 0 ≤ maxBufferSize)
    (hreach : ChunkedReachable maxBufferSize maxSubscribers st) :
    (∀ msg credits, st.subs = [] → (jsTrim msg.data).isEmpty = false →
      (chunkedBroadcast st msg maxBufferSize credits).globalMessageBuffer =
        (if sumBytes st.globalMessageBuffer + byteLen msg ≤ maxBufferSize
         then st.globalMessageBuffer ++ [msg] else st.globalMessageBuffer)) ∧
    (st.subs.length < maxSubscribers →
      (chunkedAttach st maxBufferSize maxSubscribers).2 =
        some (fitTake maxBufferSize 0 st.globalMessageBuffer) ∧
      (chunkedAttach st maxBufferSize maxSubscribers).1.globalMessageBuffer = []) ∧
    (st.subs ≠ [] → st.subs.length < maxSubscribers →
      (chunkedAttach st maxBufferSize maxSubscribers).2 = some []) := by
  obtain ⟨inv1, inv2, inv3⟩ :=
    replayInvariant_of_reachable maxBufferSize maxSubscribers st hmax hreach
  refine ⟨?_, ?_, ?_⟩
  · intro msg credits hempty htrim
    unfold chunkedBroadcast
    rw [if_neg (by simp [htrim]), hempty]
    simp only [hempty, ← inv2]
    split
    · simp
    · simp
  · intro hlt
    obtain ⟨h1, h2, _, _⟩ := chunkedAttach_drain st maxBufferSize maxSubscribers hlt
    exact ⟨h1, h2⟩
  · intro hne hlt
    obtain ⟨h1, _, _, _⟩ := chunkedAttach_drain st maxBufferSize maxSubscribers hlt
    rw [h1, (inv1 hne).1]
    rfl

/-- C6 witness: attaching to the initial (empty) engine with ceiling 4 and
capacity 1 drains the (empty) replay buffer and leaves it cleared. -/
theorem c6_replay_protocol_witness :
    (chunkedAttach chunkedInit 4 1).2 = some (fitTake 4 0 chunkedInit.globalMessageBuffer) ∧
    (chunkedAttach chunkedInit 4 1).1.globalMessageBuffer = [] :=
  (c6_replay_protocol 4 1 chunkedInit (by decide) Relation.ReflTransGen.refl).2.1 (by decide)

/-- C10.  During the chunked-ndjson first-attach replay drain, delivery stops
at the first replayed message that would push the new subscriber's queue past
`maxBufferSize` and every remaining replayed message is discarded (the queue
receives exactly the greedy fitting prefix); the replay buffer is cleared
unconditionally afterwards; and the attaching subscriber stays registered —
it is not evicted for this overflow. -/
theorem c10_replay_drain_truncation (st : ChunkedState) (maxBufferSize : Int)
    (maxSubscribers : Nat) (hlt : st.subs.length < maxSubscribers) :
    (chunkedAttach st maxBufferSize maxSubscribers).2 =
      some (fitTake maxBufferSize 0 st.globalMessageBuffer) ∧
    (chunkedAttach st maxBufferSize maxSubscribers).1.globalMessageBuffer = [] ∧
    (chunkedAttach st maxBufferSize maxSubscribers).1.globalBufferSize = 0 ∧
    (chunkedAttach st maxBufferSize maxSubscribers).1.subs =
      st.subs ++ [deliverLoop { buffer := [], bufferSize := 0 } st.globalMessageBuffer maxBufferSize] :=
  chunkedAttach_drain st maxBufferSize maxSubscribers hlt

/-- C10 witness: with ceiling 5 and replay `["aaa", "bbbbbb", "c"]`, the drain
delivers only `"aaa"` — it stops at `"bbbbbb"` and also discards the later
`"c"` even though `"c"` alone would fit — and clears the replay buffer. -/
theorem c10_replay_drain_truncation_witness :
    fitTake 5 0 ["aaa", "bbbbbb", "c"] = ["aaa"] ∧
    ((chunkedAttach replayDemoState 5 2).2 =
      some (fitTake 5 0 replayDemoState.globalMessageBuffer) ∧
     (chunkedAttach replayDemoState 5 2).1.globalMessageBuffer = [] ∧
     (chunkedAttach replayDemoState 5 2).1.globalBufferSize = 0 ∧
     (chunkedAttach replayDemoState 5 2).1.subs =
       replayDemoState.subs ++
         [deliverLoop { buffer := [], bufferSize := 0 }
           replayDemoState.globalMessageBuffer 5]) :=
  ⟨by rfl, c10_replay_drain_truncation replayDemoState 5 2 (by decide)⟩

/-- C7 (code bug).  After an explicit `stop()` on a supervisor with an armed
restart timer, the timer is cleared — but the child exit that stop's own
SIGTERM causes (`code = null`, `signal = 'SIGTERM'`) satisfies
`code !== 0 || signal !== null`, so the exit listener arms a fresh restart
timer and increments the restart counter: a restart follows an explicit Stop. -/
theorem c7_stop_does_not_prevent_restart :
    (pmStop { processAlive := true, started := true, restartCount := 0, restartTimerArmed := true }).restartTimerArmed = false ∧
    (handleExit (pmStop { processAlive := true, started := true, restartCount := 0, restartTimerArmed := true })
        none (some "SIGTERM")).restartTimerArmed = true ∧
    (handleExit (pmStop { processAlive := true, started := true, restartCount := 0, restartTimerArmed := true })
        none (some "SIGTERM")).restartCount = 1 := by
  refine ⟨rfl, ?_, ?_⟩ <;> rfl

/-- C8 (code bug).  With the environment empty and the configuration declaring
an input `token` with default `"d"`, resolving the argument list
`["$\x7binput:token\x7d"]` against the declared inputs succeeds with `["d"]` —
but `spawnProcess` invokes `resolveInputVariables(this.tool.args, [])` with an
empty inputs list, so the declared default is never consulted, the resolution
throws, and the catch block schedules a restart instead of exiting: the
failure is neither resolved by the default nor fatal. -/
theorem c8_spawn_resolution_bug :
    resolveInputVariables [Arg.token "" "token" ""]
        [{ id := "token", defaultValue := some "d" }] (fun _ => none) (fun _ => none) =
      .ok ["d"] ∧
    spawnProcess [Arg.token "" "token" ""] (fun _ => none) = .restartScheduled := by
  constructor <;> rfl

/-- C9.  Configuration loading disables lazy start exactly for the literal
string `"false"`: when `LAZY_START` is unset, or set to `"0"`, `"False"`,
`"FALSE"`, `"no"`, or anything else, `lazyStart` is `true`. -/
theorem c9_lazy_start_default :
    (∀ v, loadBridgeConfig_lazyStart v = false ↔ v = some "false") ∧
    loadBridgeConfig_lazyStart none = true ∧
    loadBridgeConfig_lazyStart (some "0") = true ∧
    loadBridgeConfig_lazyStart (some "False") = true ∧
    loadBridgeConfig_lazyStart (some "FALSE") = true ∧
    loadBridgeConfig_lazyStart (some "no") = true ∧
    loadBridgeConfig_lazyStart (some "false") = false := by
  refine ⟨fun v => ?_, by decide, by decide, by decide, by decide, by decide, by decide⟩
  simp [loadBridgeConfig_lazyStart]

end Bridge
